import Mathlib

/-!
Verification of the task-graph synthesizer of `lib/bundle.js` (RightScale
ui-build-tools).  File paths and glob patterns are modelled as lists of
`/`-separated segments; the filesystem is a list of such paths; the Gulp
registry is a list of `Task` records; every collaborator invocation is
captured as an `Action` payload.  Minimatch's special handling of leading
dots in file names is not modelled.
-/

namespace UiBuildTools

/-- A file path, as its `/`-separated segments. -/
abbrev Path := List String

/-- Fuel-driven splitter over character lists: splits at each leftmost
occurrence of `sep` (kernel-reducible, unlike `String.splitOn`). -/
def splitChars (sep : List Char) : Nat → List Char → List Char → List (List Char)
  | 0, acc, rest => [acc.reverse ++ rest]
  | _ + 1, acc, [] => [acc.reverse]
  | fuel + 1, acc, c :: cs =>
      if sep.isPrefixOf (c :: cs) then
        acc.reverse :: splitChars sep fuel [] ((c :: cs).drop sep.length)
      else splitChars sep fuel (c :: acc) cs

/-- `String.splitOn` semantics over the character-list representation. -/
def strSplitOn (s sep : String) : List String :=
  if sep.data = [] then [s]
  else (splitChars sep.data (s.data.length + 1) [] s.data).map (fun cs => ⟨cs⟩)

/-- Matches one glob segment pattern (a literal, or a single-`*` form such as
`*.ts` or `_*.scss`) against one path segment, at the character-list level. -/
def segMatch (p s : String) : Bool :=
  match strSplitOn p "*" with
  | [lit] => s == lit
  | [pre, post] =>
      pre.data.isPrefixOf s.data && post.data.isSuffixOf s.data &&
        pre.length + post.length ≤ s.length
  | _ => false

/-- Matches a glob pattern (segment list, `**` spanning any number of
segments) against a path: `**` consumes any number of leading segments, so
the rest of the pattern must match some tail of the path. -/
def globMatch : List String → Path → Bool
  | [], f => f.isEmpty
  | "**" :: ps, f => f.tails.any (fun t => globMatch ps t)
  | _ :: _, [] => false
  | p :: ps, s :: ss => segMatch p s && globMatch ps ss

/-- A literal glob segment: splitting on `*` returns the segment unchanged
(no wildcard present). -/
def litSeg (s : String) : Bool := strSplitOn s "*" == [s]

/-- A Gulp source pattern: positive, or negated (the source's `!` string
pre-fix). -/
inductive GPat where
  | pos (p : List String)
  | neg (p : List String)
deriving DecidableEq, Repr

/-- The underlying pattern of a `GPat`. -/
def GPat.pattern : GPat → List String
  | .pos p => p
  | .neg p => p

/-- One step of Gulp's ordered pattern matching: a positive match turns a
file on, a later negative match turns it off again. -/
def gulpStep (f : Path) (acc : Bool) (g : GPat) : Bool :=
  match g with
  | .pos p => acc || globMatch p f
  | .neg p => if globMatch p f then false else acc

/-- Whether `gulp.src pats` selects file `f` (ordered semantics). -/
def gulpMatch (pats : List GPat) (f : Path) : Bool :=
  pats.foldl (gulpStep f) false

/-- `glob.sync pattern {ignore}` over the modelled filesystem. -/
def globSync (fs : List Path) (pat : List String) (ignore : List (List String)) : List Path :=
  fs.filter (fun f => globMatch pat f && !(ignore.any (fun ig => globMatch ig f)))

/-- One bundle's configuration (`BundleConfig` in the spec); optional JS
keys are `Option`s, keys that lodash treats as empty lists when absent are
plain lists. -/
structure BundleConfig where
  name : String
  root : String
  dependencies : List String := []
  angular : Option Bool := none
  library : Bool := false
  minify : Option Bool := none
  beforeBuild : List String := []
  assetFolders : List String := []
  globals : Option String := none
  run : Bool := false
deriving DecidableEq, Repr

/-- The global configuration object. -/
structure GlobalConfig where
  minify : Option Bool := none
  bundles : List BundleConfig := []
deriving DecidableEq, Repr

/-- JavaScript's `String.replace` with a string argument: replaces only the
first occurrence. -/
def jsReplaceFirst (s pat rep : String) : String :=
  match strSplitOn s pat with
  | [] => s
  | [x] => x
  | x :: rest => x ++ rep ++ (pat.intercalate rest)

/-- `(bundle.root + '/').replace('//', '/')`, parsed into segments: the
resulting string always ends in `/`, so its segment list has a trailing
empty chunk which is dropped (patterns are appended after that slash). -/
def rootPath (r : String) : Path :=
  (strSplitOn (jsReplaceFirst (r ++ "/") "//" "/") "/").dropLast

/-- The normalized root segments of a bundle. -/
def rootOf (b : BundleConfig) : Path := rootPath b.root

/-- `assetPaths(prefix, postfix, folders)` of the source: one pattern per
declared asset folder. -/
def assetPaths (pre : Path) (post : List String) (folders : List String) : List (List String) :=
  folders.map (fun f => pre ++ strSplitOn f "/" ++ post)

/-- A construction-time crash (the JS runtime fault raised when a property
of `undefined` is read). -/
inductive Crash where
  | undefinedProperty (prop : String)
deriving DecidableEq, Repr

/-- A collaborator invocation recorded as a task's action payload. -/
inductive Action where
  | templatesPreCache (patterns : List GPat) (bundleName : String)
  | imagesPreCache (patterns : List GPat) (bundleName : String)
  | assetsCopy (patterns : List GPat) (base : Path) (dest : String)
  | stylesCompile (entry : Path) (partials : List String) (outDir : String) (bundleName : String)
  | codeVerify (files : List GPat)
  | codeCompile (entry : Path) (outFile : Path) (minify : Bool) (library : Bool)
      (globals : Option String)
  | specInject (src : Path) (specsGlob : List String) (dest : Path)
  | buildCopy (patterns : List GPat) (dest : String)
  | karma (browsers : List String) (files : List Path) (singleRun : Option Bool)
deriving DecidableEq, Repr

/-- A registered Gulp task: name, prerequisite task names, optional action. -/
structure Task where
  name : String
  deps : List String
  action : Option Action
deriving DecidableEq, Repr

/-- The static test preset table (`specsTasks` of the source), in object
insertion order. -/
def specsTasks : List (String × List String) :=
  [("spec", ["PhantomJS"]),
   ("spec:chrome", ["Chrome"]),
   ("spec:ie", ["IE"]),
   ("spec:firefox", ["Firefox"]),
   ("spec:edge", ["Edge"]),
   ("spec:windows", ["Chrome", "Firefox", "IE", "Edge"]),
   ("spec:linux", ["Chrome", "Firefox"])]

/-- `k.indexOf(':') > 0`: the key has a colon, and not as its first
character. -/
def hasQualifier (k : String) : Bool :=
  k.data.contains ':' && !(k.data.head? == some ':')

/-- Lodash `_.intersection(a, b)`: unique values of `a`, in `a`'s order,
that also occur in `b`. -/
def lodashIntersection (a b : List String) : List String :=
  (a.foldl (fun acc x => if x ∈ acc then acc else acc ++ [x]) []).filter
    (fun x => decide (x ∈ b))

/-- The four source patterns selecting a root's non-spec TypeScript files
(shared by the bundle's own file set and `dependenciesCode`). -/
def codeFiles (root : Path) : List GPat :=
  [.pos (root ++ ["**", "*.ts"]), .neg (root ++ ["spec.ts"]),
   .neg (root ++ ["**", "*.spec.ts"]), .neg (root ++ ["spec", "**", "*"])]

/-- `dependenciesCode(name)`: looks the dependency up in the global bundle
list and produces its non-spec `.ts` patterns; an unknown name makes the JS
code read `.root` of `undefined`, modelled as a crash. -/
def dependenciesCode (config : GlobalConfig) (name : String) : Except Crash (List GPat) :=
  match config.bundles.find? (fun b => b.name == name) with
  | none => .error (.undefinedProperty "root")
  | some dep => .ok (codeFiles (rootPath dep.root))

/-- The code-verify input patterns: the bundle's own non-spec `.ts`
patterns followed by each direct dependency's, in declaration order. -/
def verifyFiles (b : BundleConfig) (config : GlobalConfig) (root : Path) : Except Crash (List GPat) :=
  b.dependencies.foldlM (fun acc d => (dependenciesCode config d).map (acc ++ ·)) (codeFiles root)

/-- The `<name>:templates` task. -/
def templatesTask (b : BundleConfig) (root : Path) : Task :=
  ⟨b.name ++ ":templates", [],
   some (.templatesPreCache [.pos (root ++ ["**", "*.html"]), .neg (root ++ ["*.html"])] b.name)⟩

/-- The patterns handed to `images.preCache`: the catch-all `.svg` pattern
concatenated with one (non-negated) pattern per asset folder. -/
def imagesPreCachePatterns (root : Path) (folders : List String) : List GPat :=
  .pos (root ++ ["**", "*.svg"]) :: (assetPaths root ["**", "*", "*.svg"] folders).map .pos

/-- The `<name>:images` task. -/
def imagesTask (b : BundleConfig) (root : Path) : Task :=
  ⟨b.name ++ ":images", [],
   some (.imagesPreCache (imagesPreCachePatterns root b.assetFolders) b.name)⟩

/-- The `<name>:assets` task. -/
def assetsTask (b : BundleConfig) (root : Path) : Task :=
  ⟨b.name ++ ":assets", [],
   some (.assetsCopy ((assetPaths root ["**", "*"] b.assetFolders).map .pos) root
     ("dist/" ++ b.name))⟩

/-- The `<name>:styles` task: prerequisites are the lodash intersection of
the registry (first argument, giving the order) with the declared
dependencies' style ids. -/
def stylesTask (b : BundleConfig) (root : Path) (styleTasks : List String) : Task :=
  ⟨b.name ++ ":styles",
   lodashIntersection styleTasks (b.dependencies.map (fun d => d ++ ":styles")),
   some (.stylesCompile (root ++ ["index.scss"]) (root ++ ["**", "_*.scss"])
     ("dist/" ++ b.name ++ "/css/") b.name)⟩

/-- The `<name>:code:compile` task. -/
def codeCompileTask (b : BundleConfig) (config : GlobalConfig) (root : Path) : Task :=
  ⟨b.name ++ ":code:compile", [b.name ++ ":code:verify"],
   some (.codeCompile (root ++ ["index.ts"]) ["dist", b.name, "js", b.name ++ ".js"]
     (b.minify.getD (config.minify.getD true)) b.library b.globals)⟩

/-- The code verify/compile stage: only when `root/index.ts` exists; the
verify task's prerequisites are the accumulated pre-build ids. -/
def codeStage (b : BundleConfig) (config : GlobalConfig) (fs : List Path) (root : Path)
    (pb : List String) : Except Crash (List Task) :=
  if (root ++ ["index.ts"]) ∈ fs then
    (verifyFiles b config root).map (fun fl =>
      [⟨b.name ++ ":code:verify", pb, some (.codeVerify fl)⟩, codeCompileTask b config root])
  else .ok []

/-- The karma bundle files (`.tmp/<name>.spec.js` plus its source map). -/
def karmaFiles (name : String) : List Path :=
  [[".tmp", name ++ ".spec.js"], [".tmp", name ++ ".spec.js.map"]]

/-- The test-matrix tasks: one base karma task per preset (no explicit
`singleRun`), plus a `:debug` variant (`singleRun = false`) for every preset
key whose `indexOf(':')` is positive. -/
def karmaMatrixTasks (name : String) : List Task :=
  (specsTasks.map (fun kv =>
    ⟨name ++ ":" ++ kv.1, [name ++ ":spec:compile"],
     some (.karma kv.2 (karmaFiles name) none)⟩ ::
    (if hasQualifier kv.1 then
      [⟨name ++ ":" ++ kv.1 ++ ":debug", [name ++ ":spec:compile"],
        some (.karma kv.2 (karmaFiles name) (some false))⟩]
     else []))).flatten

/-- The spec pipeline: inject, verify, compile (library flag hard-coded to
`false`, globals omitted), then the karma matrix. -/
def specStageTasks (b : BundleConfig) (config : GlobalConfig) (root : Path)
    (pb : List String) : List Task :=
  [⟨b.name ++ ":spec:inject", [],
    some (.specInject (root ++ ["spec.ts"]) (root ++ ["", "**", "*.spec.ts"]) [".tmp", b.name])⟩,
   ⟨b.name ++ ":spec:verify", [], some (.codeVerify [.pos (root ++ ["", "**", "*.ts"])])⟩,
   ⟨b.name ++ ":spec:compile",
    [b.name ++ ":spec:verify", b.name ++ ":spec:inject"] ++ pb,
    some (.codeCompile [".tmp", b.name, "spec.ts"] [".tmp", b.name ++ ".spec.js"]
      (b.minify.getD (config.minify.getD true)) false none)⟩] ++
  karmaMatrixTasks b.name

/-- The sealed `<name>:preBuild` aggregation task. -/
def preBuildTask (b : BundleConfig) (pb : List String) : Task :=
  ⟨b.name ++ ":preBuild", pb, none⟩

/-- The `<name>:build-tasks` task (copies root files except `.ts`/`.scss`). -/
def buildTasksTask (b : BundleConfig) (root : Path) (deps : List String) : Task :=
  ⟨b.name ++ ":build-tasks", deps,
   some (.buildCopy [.pos (root ++ ["*"]), .neg (root ++ ["*.ts"]), .neg (root ++ ["*.scss"])]
     ("dist/" ++ b.name))⟩

/-- The overridable `<name>:build` task. -/
def buildTask (b : BundleConfig) : Task :=
  ⟨b.name ++ ":build", [b.name ++ ":build-tasks"], none⟩

/-- The initial pre-build prerequisites: `beforeBuild` ids followed by
`<dep>:preBuild` for each declared dependency. -/
def preBuildDeps0 (b : BundleConfig) : List String :=
  b.beforeBuild ++ b.dependencies.map (fun d => d ++ ":preBuild")

/-- Whether the Angular convention gate is open (`angular !== false`). -/
def angularOn (b : BundleConfig) : Bool := b.angular.getD true

/-- Whether the templates stage fires: Angular gate open and the sub-folder
`.html` glob (ignoring root-level `.html` files) non-empty. -/
def hasTemplatesB (b : BundleConfig) (fs : List Path) : Bool :=
  angularOn b &&
    !(globSync fs (rootOf b ++ ["**", "*.html"]) [rootOf b ++ ["*.html"]]).isEmpty

/-- Whether the images stage fires: Angular gate open and the `.svg` glob
(ignoring the declared asset folders) non-empty. -/
def hasImagesB (b : BundleConfig) (fs : List Path) : Bool :=
  angularOn b &&
    !(globSync fs (rootOf b ++ ["**", "*.svg"])
        (assetPaths (rootOf b) ["**", "*"] b.assetFolders)).isEmpty

/-- Whether `root/index.scss` exists. -/
def hasStyleB (b : BundleConfig) (fs : List Path) : Bool :=
  decide ((rootOf b ++ ["index.scss"]) ∈ fs)

/-- Whether `root/index.ts` exists. -/
def hasCodeB (b : BundleConfig) (fs : List Path) : Bool :=
  decide ((rootOf b ++ ["index.ts"]) ∈ fs)

/-- Whether `root/spec.ts` exists. -/
def hasSpecB (b : BundleConfig) (fs : List Path) : Bool :=
  decide ((rootOf b ++ ["spec.ts"]) ∈ fs)

/-- The sealed pre-build prerequisite list: the initial ids, extended (in
source order) by the templates, images and styles task names when those
stages fire. -/
def preBuildDepsFinal (b : BundleConfig) (fs : List Path) : List String :=
  let pb1 :=
    if hasTemplatesB b fs then preBuildDeps0 b ++ [b.name ++ ":templates"]
    else preBuildDeps0 b
  let pb2 := if hasImagesB b fs then pb1 ++ [b.name ++ ":images"] else pb1
  if hasStyleB b fs then pb2 ++ [b.name ++ ":styles"] else pb2

/-- The build prerequisite list: the assets task, then the code compile
task when the code stage fires. -/
def buildDepsFinal (b : BundleConfig) (fs : List Path) : List String :=
  if hasCodeB b fs then [b.name ++ ":assets", b.name ++ ":code:compile"]
  else [b.name ++ ":assets"]

/-- `generate(bundle, config)` of the source, as a pure function from the
style registry to the registered tasks (in registration order) and the
updated registry. -/
def generateTasks (b : BundleConfig) (config : GlobalConfig) (fs : List Path)
    (styleTasks : List String) : Except Crash (List Task × List String) :=
  let root := rootOf b
  let pb3 := preBuildDepsFinal b fs
  match codeStage b config fs root pb3 with
  | .error e => .error e
  | .ok cTasks =>
    .ok ((if hasTemplatesB b fs then [templatesTask b root] else []) ++
         (if hasImagesB b fs then [imagesTask b root] else []) ++
         [assetsTask b root] ++
         (if hasStyleB b fs then [stylesTask b root styleTasks] else []) ++
         cTasks ++
         [preBuildTask b pb3, buildTasksTask b root (pb3 ++ buildDepsFinal b fs), buildTask b] ++
         (if hasSpecB b fs then specStageTasks b config root pb3 else []),
         if hasStyleB b fs then styleTasks ++ [b.name ++ ":styles"] else styleTasks)

/-- The process-wide construction state: style registry, Gulp task
registry, and the bundles for which the dev-server generator was invoked. -/
structure GenState where
  styleTasks : List String := []
  tasks : List Task := []
  runCalls : List String := []
deriving DecidableEq, Repr

/-- One `generate` call threaded through the process state. -/
def generate (b : BundleConfig) (config : GlobalConfig) (fs : List Path)
    (st : GenState) : Except Crash GenState :=
  (generateTasks b config fs st.styleTasks).map (fun out =>
    ⟨out.2, st.tasks ++ out.1,
     if b.run then st.runCalls ++ [b.name] else st.runCalls⟩)

/-- Modelled from the spec: the public entry point (not under `src/`)
iterates the bundles of the global configuration in declaration order,
calling `generate` for each against the shared process state. -/
def generateAll (config : GlobalConfig) (fs : List Path) : Except Crash GenState :=
  config.bundles.foldlM (fun st b => generate b config fs st) {}

/-- The tasks of a successful generation (none on a crash). -/
def okTasks (e : Except Crash (List Task × List String)) : List Task :=
  match e with
  | .ok o => o.1
  | .error _ => []

/-- Modelled from the spec: the consuming project's `karma.conf.js` (not
under `src/`; karma tasks resolve it at run time) configures single-run
execution, as §4.3 states base runs are single-run. -/
def karmaConfSingleRun : Bool := true

/-- The single-run flag karma effectively uses: the explicit per-task value
when given, else the configuration-file default. -/
def effectiveSingleRun (explicit : Option Bool) : Bool :=
  explicit.getD karmaConfSingleRun

/-- Whether a construction result is a success. -/
def exceptOk {α : Type} (e : Except Crash α) : Bool :=
  match e with
  | .ok _ => true
  | .error _ => false

/-- A base test task: a karma action with no explicit `singleRun`. -/
def isBaseKarma (t : Task) : Bool :=
  match t.action with
  | some (.karma _ _ none) => true
  | _ => false

/-- A debug-variant test task: a karma action with `singleRun = false`. -/
def isDebugKarma (t : Task) : Bool :=
  match t.action with
  | some (.karma _ _ (some false)) => true
  | _ => false

/-- The dependency's normalized root, when the named bundle exists. -/
def bundleRoot? (config : GlobalConfig) (name : String) : Option Path :=
  (config.bundles.find? (fun b => b.name == name)).map (fun d => rootPath d.root)

/-- Semantic description of one root's non-spec TypeScript files: strictly
under the root, last segment a `.ts` name, excluding the root-level
`spec.ts`, every `*.spec.ts` segment, and everything under `root/spec/`. -/
def isNonSpecTs (root f : Path) : Bool :=
  root.isPrefixOf f &&
  ((f.drop root.length).getLast?.any (fun a => segMatch "*.ts" a)) &&
  !(f.drop root.length == ["spec.ts"]) &&
  !((f.drop root.length).getLast?.any (fun a => segMatch "*.spec.ts" a)) &&
  !(((f.drop root.length).head? == some "spec") && !(f.drop root.length).tail.isEmpty)

/-! ### Concrete fixtures used by witnesses and counterexamples -/

/-- A minimal one-bundle configuration. -/
def appBundle : BundleConfig := { name := "app", root := "src" }

/-- Global configuration holding only `appBundle`. -/
def appConfig : GlobalConfig := { bundles := [appBundle] }

/-- A filesystem with only the test entry point. -/
def specFs : List Path := [["src", "spec.ts"]]

/-- A filesystem with code, style and test entry points. -/
def fullFs : List Path :=
  [["src", "index.ts"], ["src", "index.scss"], ["src", "spec.ts"], ["src", "util.ts"]]

/-- Global configuration with minification disabled globally. -/
def appConfigNoMinify : GlobalConfig := { bundles := [appBundle], minify := some false }

/-- A bundle declaring an asset folder, for the images scenario. -/
def imgBundle : BundleConfig := { name := "app", root := "src", assetFolders := ["assets"] }

/-- Global configuration holding only `imgBundle`. -/
def imgConfig : GlobalConfig := { bundles := [imgBundle] }

/-- A filesystem with one `.svg` outside and one inside the asset folder. -/
def imgFs : List Path := [["src", "logo.svg"], ["src", "assets", "icon.svg"]]

/-- A bundle whose dependency names no configured bundle. -/
def ghostBundle : BundleConfig := { name := "app", root := "src", dependencies := ["ghost"] }

/-- Global configuration holding only `ghostBundle`. -/
def ghostConfig : GlobalConfig := { bundles := [ghostBundle] }

/-- Scenario-2 bundles: `base` ← `core` ← `app2` (direct dependency chain). -/
def baseBundle : BundleConfig := { name := "base", root := "vendor" }

/-- `core` depends on `base`. -/
def coreBundle : BundleConfig := { name := "core", root := "lib", dependencies := ["base"] }

/-- `app2` depends directly only on `core`. -/
def app2Bundle : BundleConfig := { name := "app2", root := "src", dependencies := ["core"] }

/-- Global configuration for the scenario-2 chain. -/
def chainConfig : GlobalConfig := { bundles := [baseBundle, coreBundle, app2Bundle] }

/-- Filesystem for the scenario-2 chain: all three bundles have code. -/
def chainFs : List Path :=
  [["vendor", "index.ts"], ["lib", "index.ts"], ["src", "index.ts"],
   ["vendor", "v.ts"], ["lib", "c.ts"], ["src", "a.ts"], ["src", "a.spec.ts"]]

/-- Style scenario: bundle `a` with styles. -/
def styleABundle : BundleConfig := { name := "a", root := "a" }

/-- Style scenario: bundle `c` without styles. -/
def styleCBundle : BundleConfig := { name := "c", root := "c" }

/-- Style scenario: bundle `b` with styles, depending on `a` and `c`. -/
def styleBBundle : BundleConfig := { name := "b", root := "b", dependencies := ["a", "c"] }

/-- Global configuration for the style scenario, `a` and `c` before `b`. -/
def styleConfig : GlobalConfig := { bundles := [styleABundle, styleCBundle, styleBBundle] }

/-- Filesystem for the style scenario: `a` and `b` have `index.scss`, `c`
does not. -/
def styleFs : List Path := [["a", "index.scss"], ["b", "index.scss"], ["c", "readme.md"]]

/-- The style-task ids the registry records for a run over `bs`: one id per
bundle with a style entry point, in declaration order. -/
def styledStyleIds (bs : List BundleConfig) (fs : List Path) : List String :=
  (bs.filter (fun b => hasStyleB b fs)).map (fun b => b.name ++ ":styles")

/-! ### Structural lemmas about the generator -/

theorem mem_ite_nil {t : Task} {c : Bool} {l : List Task} :
    (t ∈ (if c then l else [])) ↔ c = true ∧ t ∈ l := by
  cases c <;> simp

theorem generateTasks_ok {b : BundleConfig} {config : GlobalConfig} {fs : List Path}
    {reg : List String} {out : List Task × List String}
    (h : generateTasks b config fs reg = .ok out) :
    ∃ cTasks, codeStage b config fs (rootOf b) (preBuildDepsFinal b fs) = .ok cTasks ∧
      out.1 = (if hasTemplatesB b fs then [templatesTask b (rootOf b)] else []) ++
        (if hasImagesB b fs then [imagesTask b (rootOf b)] else []) ++
        [assetsTask b (rootOf b)] ++
        (if hasStyleB b fs then [stylesTask b (rootOf b) reg] else []) ++
        cTasks ++
        [preBuildTask b (preBuildDepsFinal b fs),
         buildTasksTask b (rootOf b) (preBuildDepsFinal b fs ++ buildDepsFinal b fs),
         buildTask b] ++
        (if hasSpecB b fs then specStageTasks b config (rootOf b) (preBuildDepsFinal b fs)
         else []) ∧
      out.2 = (if hasStyleB b fs then reg ++ [b.name ++ ":styles"] else reg) := by
  simp only [generateTasks] at h
  cases hcs : codeStage b config fs (rootOf b) (preBuildDepsFinal b fs) with
  | error e => rw [hcs] at h; cases h
  | ok cTasks =>
    rw [hcs] at h
    have hP : _ = out := Except.ok.inj h
    exact ⟨cTasks, rfl, by rw [← hP], by rw [← hP]⟩

theorem codeStage_ok {b : BundleConfig} {config : GlobalConfig} {fs : List Path}
    {root : Path} {pb : List String} {c : List Task}
    (h : codeStage b config fs root pb = .ok c) :
    ((root ++ ["index.ts"]) ∉ fs ∧ c = []) ∨
    ((root ++ ["index.ts"]) ∈ fs ∧ ∃ fl, verifyFiles b config root = .ok fl ∧
      c = [⟨b.name ++ ":code:verify", pb, some (.codeVerify fl)⟩,
           codeCompileTask b config root]) := by
  unfold codeStage at h
  split at h
  · next hmem =>
    right
    refine ⟨hmem, ?_⟩
    cases hv : verifyFiles b config root with
    | error e => rw [hv] at h; cases h
    | ok fl =>
      rw [hv] at h
      simp only [Except.map] at h
      exact ⟨fl, rfl, (Except.ok.inj h).symm⟩
  · next hmem => exact Or.inl ⟨hmem, (Except.ok.inj h).symm⟩

theorem hq_spec : hasQualifier "spec" = false := by decide

theorem hq_chrome : hasQualifier "spec:chrome" = true := by decide

theorem hq_ie : hasQualifier "spec:ie" = true := by decide

theorem hq_firefox : hasQualifier "spec:firefox" = true := by decide

theorem hq_edge : hasQualifier "spec:edge" = true := by decide

theorem hq_windows : hasQualifier "spec:windows" = true := by decide

theorem hq_linux : hasQualifier "spec:linux" = true := by decide

/-! ### C1: the test matrix sizes -/

/-- C1 (amended): for every bundle whose root contains `spec.ts`, a
successful graph construction registers exactly 7 base test tasks — one per
preset key, named `<name>:<presetKey>` — and exactly 6 debug-variant tasks:
one for every preset whose key contains the qualifier separator (chrome,
ie, firefox, edge, windows and linux). -/
theorem spec_matrix_counts (b : BundleConfig) (config : GlobalConfig) (fs : List Path)
    (reg : List String) (out : List Task × List String)
    (h : generateTasks b config fs reg = .ok out)
    (hspec : (rootOf b ++ ["spec.ts"]) ∈ fs) :
    (out.1.filter isBaseKarma).map Task.name =
      specsTasks.map (fun kv => b.name ++ ":" ++ kv.1) ∧
    (out.1.filter isDebugKarma).map Task.name =
      (specsTasks.filter (fun kv => hasQualifier kv.1)).map
        (fun kv => b.name ++ ":" ++ kv.1 ++ ":debug") ∧
    (out.1.filter isBaseKarma).length = 7 ∧
    (out.1.filter isDebugKarma).length = 6 := by
  obtain ⟨cTasks, hcs, h1, _⟩ := generateTasks_ok h
  have hsp : hasSpecB b fs = true := decide_eq_true hspec
  rcases codeStage_ok hcs with ⟨hnc, rfl⟩ | ⟨hcmem, fl, hv, rfl⟩ <;>
    rw [h1, hsp] <;>
    cases hT : hasTemplatesB b fs <;> cases hI : hasImagesB b fs <;>
    cases hS : hasStyleB b fs <;>
    simp [List.filter_append, isBaseKarma, isDebugKarma, templatesTask, imagesTask,
      assetsTask, stylesTask, preBuildTask, buildTasksTask, buildTask,
      codeCompileTask, specStageTasks, karmaMatrixTasks, specsTasks,
      hq_spec, hq_chrome, hq_ie, hq_firefox, hq_edge, hq_windows, hq_linux]

/-- C1 (counterexample): on a concrete bundle whose root contains
`spec.ts`, construction produces 6 debug-variant tasks, not the 4 the
claim states. -/
theorem spec_matrix_counts_counterexample :
    (generateTasks appBundle appConfig specFs []).map
      (fun out => out.1.countP isDebugKarma) = .ok 6 ∧ (6 : ℕ) ≠ 4 :=
  ⟨rfl, by decide⟩

/-- C1 (witness): the amended matrix sizes at a concrete input. -/
theorem spec_matrix_counts_witness :
    ∃ out, generateTasks appBundle appConfig specFs [] = .ok out ∧
      ((out.1.filter isBaseKarma).map Task.name =
        specsTasks.map (fun kv => appBundle.name ++ ":" ++ kv.1) ∧
      (out.1.filter isDebugKarma).map Task.name =
        (specsTasks.filter (fun kv => hasQualifier kv.1)).map
          (fun kv => appBundle.name ++ ":" ++ kv.1 ++ ":debug") ∧
      (out.1.filter isBaseKarma).length = 7 ∧
      (out.1.filter isDebugKarma).length = 6) := by
  cases hg : generateTasks appBundle appConfig specFs [] with
  | error e =>
    have hok : exceptOk (generateTasks appBundle appConfig specFs []) = true := rfl
    rw [hg] at hok
    simp [exceptOk] at hok
  | ok out =>
    exact ⟨out, rfl, spec_matrix_counts appBundle appConfig specFs [] out hg (by decide)⟩

/-! ### C2, C3, C9: action payloads -/

theorem karma_action_of_mem {name : String} {t : Task} (ht : t ∈ karmaMatrixTasks name) :
    ∃ br fl sr, t.action = some (.karma br fl sr) := by
  simp only [karmaMatrixTasks, specsTasks, hq_spec, hq_chrome, hq_ie, hq_firefox,
    hq_edge, hq_windows, hq_linux, List.map_cons, List.map_nil, List.flatten,
    Bool.false_eq_true, if_false, if_true, List.append_nil, List.nil_append,
    List.cons_append, List.mem_cons, List.not_mem_nil, or_false] at ht
  rcases ht with rfl | rfl | rfl | rfl | rfl | rfl | rfl | rfl | rfl | rfl | rfl | rfl | rfl <;>
    exact ⟨_, _, _, rfl⟩

theorem specStage_action_cases {b : BundleConfig} {config : GlobalConfig} {root : Path}
    {pb : List String} {t : Task} (ht : t ∈ specStageTasks b config root pb) :
    t = ⟨b.name ++ ":spec:inject", [],
      some (.specInject (root ++ ["spec.ts"]) (root ++ ["", "**", "*.spec.ts"])
        [".tmp", b.name])⟩ ∨
    t = ⟨b.name ++ ":spec:verify", [], some (.codeVerify [.pos (root ++ ["", "**", "*.ts"])])⟩ ∨
    t = ⟨b.name ++ ":spec:compile",
      [b.name ++ ":spec:verify", b.name ++ ":spec:inject"] ++ pb,
      some (.codeCompile [".tmp", b.name, "spec.ts"] [".tmp", b.name ++ ".spec.js"]
        (b.minify.getD (config.minify.getD true)) false none)⟩ ∨
    (∃ br fl sr, t.action = some (.karma br fl sr)) := by
  unfold specStageTasks at ht
  rcases List.mem_append.mp ht with h3 | hk
  · simp only [List.mem_cons, List.not_mem_nil, or_false] at h3
    rcases h3 with rfl | rfl | rfl
    · exact Or.inl rfl
    · exact Or.inr (Or.inl rfl)
    · exact Or.inr (Or.inr (Or.inl rfl))
  · exact Or.inr (Or.inr (Or.inr (karma_action_of_mem hk)))

/-- C2 (amended): the static preset table maps `spec` to PhantomJS (the
headless browser), `spec:chrome` to Chrome, `spec:ie` to IE, `spec:firefox`
to Firefox, `spec:edge` to Edge, `spec:windows` to Chrome+Firefox+IE+Edge,
`spec:linux` to Chrome+Firefox; for every preset the base task
`<name>:<presetKey>` depends on the compiled spec bundle and invokes karma
with the preset's browser set and no explicit single-run flag, whose
effective value resolved through the karma configuration default is
`true`. -/
theorem preset_table_and_base_tasks (b : BundleConfig) (config : GlobalConfig)
    (fs : List Path) (reg : List String) (out : List Task × List String)
    (h : generateTasks b config fs reg = .ok out)
    (hspec : (rootOf b ++ ["spec.ts"]) ∈ fs) :
    specsTasks = [("spec", ["PhantomJS"]), ("spec:chrome", ["Chrome"]), ("spec:ie", ["IE"]),
      ("spec:firefox", ["Firefox"]), ("spec:edge", ["Edge"]),
      ("spec:windows", ["Chrome", "Firefox", "IE", "Edge"]),
      ("spec:linux", ["Chrome", "Firefox"])] ∧
    (∀ kv ∈ specsTasks,
      (⟨b.name ++ ":" ++ kv.1, [b.name ++ ":spec:compile"],
        some (.karma kv.2 (karmaFiles b.name) none)⟩ : Task) ∈ out.1) ∧
    effectiveSingleRun none = true := by
  obtain ⟨cTasks, hcs, h1, _⟩ := generateTasks_ok h
  have hsp : hasSpecB b fs = true := decide_eq_true hspec
  refine ⟨rfl, ?_, rfl⟩
  intro kv hkv
  rw [h1]
  apply List.mem_append_right
  refine mem_ite_nil.mpr ⟨hsp, ?_⟩
  have hkm : (⟨b.name ++ ":" ++ kv.1, [b.name ++ ":spec:compile"],
      some (.karma kv.2 (karmaFiles b.name) none)⟩ : Task) ∈ karmaMatrixTasks b.name := by
    fin_cases hkv <;>
      simp [karmaMatrixTasks, specsTasks, hq_spec, hq_chrome, hq_ie, hq_firefox,
        hq_edge, hq_windows, hq_linux]
  unfold specStageTasks
  exact List.mem_append_right _ hkm

/-- C2 (counterexample): the preset table maps the base key `spec` to the
browser id PhantomJS, not Headless. -/
theorem preset_table_counterexample :
    specsTasks.lookup "spec" = some ["PhantomJS"] ∧
    (some ["PhantomJS"] : Option (List String)) ≠ some ["Headless"] :=
  ⟨rfl, by decide⟩

/-- C2 (witness): the amended table/base-task facts at a concrete input. -/
theorem preset_table_and_base_tasks_witness :
    ∃ out, generateTasks appBundle appConfig specFs [] = .ok out ∧
      (specsTasks = [("spec", ["PhantomJS"]), ("spec:chrome", ["Chrome"]), ("spec:ie", ["IE"]),
        ("spec:firefox", ["Firefox"]), ("spec:edge", ["Edge"]),
        ("spec:windows", ["Chrome", "Firefox", "IE", "Edge"]),
        ("spec:linux", ["Chrome", "Firefox"])] ∧
      (∀ kv ∈ specsTasks,
        (⟨appBundle.name ++ ":" ++ kv.1, [appBundle.name ++ ":spec:compile"],
          some (.karma kv.2 (karmaFiles appBundle.name) none)⟩ : Task) ∈ out.1) ∧
      effectiveSingleRun none = true) := by
  cases hg : generateTasks appBundle appConfig specFs [] with
  | error e =>
    have hok : exceptOk (generateTasks appBundle appConfig specFs []) = true := rfl
    rw [hg] at hok
    simp [exceptOk] at hok
  | ok out =>
    exact ⟨out, rfl,
      preset_table_and_base_tasks appBundle appConfig specFs [] out hg (by decide)⟩

/-- C3: every code-compile collaborator invocation a bundle generates (the
code-compile action and the spec-compile action both carry the
`Action.codeCompile` payload) receives as minify flag `bundle.minify` when
defined, else the global config's `minify` when defined, else `true`. -/
theorem minify_resolution (b : BundleConfig) (config : GlobalConfig) (fs : List Path)
    (reg : List String) (t : Task)
    (ht : t ∈ okTasks (generateTasks b config fs reg))
    (e o : Path) (m l : Bool) (g : Option String)
    (ha : t.action = some (.codeCompile e o m l g)) :
    m = (match b.minify with
         | some v => v
         | none =>
           match config.minify with
           | some gv => gv
           | none => true) := by
  have hM : b.minify.getD (config.minify.getD true) =
      (match b.minify with
       | some v => v
       | none =>
         match config.minify with
         | some gv => gv
         | none => true) := by
    cases b.minify <;> cases config.minify <;> rfl
  cases hg : generateTasks b config fs reg with
  | error er => rw [hg] at ht; simp [okTasks] at ht
  | ok out =>
    rw [hg] at ht
    simp only [okTasks] at ht
    obtain ⟨cTasks, hcs, h1, _⟩ := generateTasks_ok hg
    rw [h1] at ht
    simp only [List.append_assoc, List.mem_append, mem_ite_nil, List.mem_cons,
      List.mem_singleton, List.not_mem_nil, or_false] at ht
    rcases ht with ⟨_, rfl⟩ | ⟨_, rfl⟩ | rfl | ⟨_, rfl⟩ | hc | (rfl | rfl | rfl) | ⟨_, hsp⟩
    · simp [templatesTask] at ha
    · simp [imagesTask] at ha
    · simp [assetsTask] at ha
    · simp [stylesTask] at ha
    · rcases codeStage_ok hcs with ⟨_, rfl⟩ | ⟨_, fl, hv, rfl⟩
      · simp at hc
      · simp only [List.mem_cons, List.mem_singleton, List.not_mem_nil, or_false] at hc
        rcases hc with rfl | rfl
        · simp at ha
        · simp only [codeCompileTask, Option.some.injEq, Action.codeCompile.injEq] at ha
          obtain ⟨-, -, hm, -, -⟩ := ha
          rw [← hm]
          exact hM
    · simp [preBuildTask] at ha
    · simp [buildTasksTask] at ha
    · simp [buildTask] at ha
    · rcases specStage_action_cases hsp with rfl | rfl | rfl | ⟨br, fl2, sr, hka⟩
      · simp at ha
      · simp at ha
      · simp only [Option.some.injEq, Action.codeCompile.injEq] at ha
        obtain ⟨-, -, hm, -, -⟩ := ha
        rw [← hm]
        exact hM
      · rw [hka] at ha
        simp at ha

/-- C3 (witness): with the global minify set to `false` and no bundle
override, the concrete code-compile action carries `false`. -/
theorem minify_resolution_witness :
    codeCompileTask appBundle appConfigNoMinify (rootOf appBundle) ∈
      okTasks (generateTasks appBundle appConfigNoMinify fullFs []) ∧
    false = (match appBundle.minify with
             | some v => v
             | none =>
               match appConfigNoMinify.minify with
               | some gv => gv
               | none => true) := by
  refine ⟨by decide, ?_⟩
  exact minify_resolution appBundle appConfigNoMinify fullFs []
    (codeCompileTask appBundle appConfigNoMinify (rootOf appBundle)) (by decide)
    _ _ false _ _ rfl

/-- C9: for a bundle with both entry points, the generated spec-compile
action passes the library flag `false` and omits the globals, whatever the
bundle's own `library` setting, while the code-compile action passes the
bundle's declared `library` flag and globals. -/
theorem spec_compile_library_flag (b : BundleConfig) (config : GlobalConfig)
    (fs : List Path) (reg : List String) (out : List Task × List String)
    (h : generateTasks b config fs reg = .ok out)
    (hspec : (rootOf b ++ ["spec.ts"]) ∈ fs)
    (hcode : (rootOf b ++ ["index.ts"]) ∈ fs) :
    (∃ t ∈ out.1, t.name = b.name ++ ":spec:compile" ∧
      ∃ e o m, t.action = some (.codeCompile e o m false none)) ∧
    (∃ t ∈ out.1, t.name = b.name ++ ":code:compile" ∧
      ∃ e o m, t.action = some (.codeCompile e o m b.library b.globals)) := by
  obtain ⟨cTasks, hcs, h1, _⟩ := generateTasks_ok h
  have hsp : hasSpecB b fs = true := decide_eq_true hspec
  constructor
  · refine ⟨⟨b.name ++ ":spec:compile",
      [b.name ++ ":spec:verify", b.name ++ ":spec:inject"] ++ preBuildDepsFinal b fs,
      some (.codeCompile [".tmp", b.name, "spec.ts"] [".tmp", b.name ++ ".spec.js"]
        (b.minify.getD (config.minify.getD true)) false none)⟩, ?_, rfl, _, _, _, rfl⟩
    rw [h1]
    apply List.mem_append_right
    refine mem_ite_nil.mpr ⟨hsp, ?_⟩
    unfold specStageTasks
    exact List.mem_append_left _ (by simp)
  · rcases codeStage_ok hcs with ⟨hnc, rfl⟩ | ⟨hcmem, fl, hv, rfl⟩
    · exact absurd hcode hnc
    · refine ⟨codeCompileTask b config (rootOf b), ?_, rfl, _, _, _, rfl⟩
      rw [h1]
      exact List.mem_append_left _ (List.mem_append_left _
        (List.mem_append_right _ (by simp)))

/-- C9 (witness): the library-flag facts at a concrete input with both
entry points. -/
theorem spec_compile_library_flag_witness :
    ∃ out, generateTasks appBundle appConfig fullFs [] = .ok out ∧
      ((∃ t ∈ out.1, t.name = appBundle.name ++ ":spec:compile" ∧
        ∃ e o m, t.action = some (.codeCompile e o m false none)) ∧
      (∃ t ∈ out.1, t.name = appBundle.name ++ ":code:compile" ∧
        ∃ e o m, t.action =
          some (.codeCompile e o m appBundle.library appBundle.globals))) := by
  cases hg : generateTasks appBundle appConfig fullFs [] with
  | error e =>
    have hok : exceptOk (generateTasks appBundle appConfig fullFs []) = true := rfl
    rw [hg] at hok
    simp [exceptOk] at hok
  | ok out =>
    exact ⟨out, rfl, spec_compile_library_flag appBundle appConfig fullFs [] out hg
      (by decide) (by decide)⟩

/-! ### Glob semantics: what the code-file patterns select -/

theorem litSeg_ne_dstar {p : String} (hp : litSeg p = true) : (p == "**") = false := by
  by_cases h : p = "**"
  · rw [h] at hp
    exact absurd hp (by decide)
  · simp [h]

theorem segMatch_lit {p : String} (hp : litSeg p = true) (s : String) :
    segMatch p s = (s == p) := by
  have hsplit : strSplitOn p "*" = [p] := eq_of_beq hp
  unfold segMatch
  rw [hsplit]

theorem globMatch_lit_nil {p : String} (hp : litSeg p = true) (ps : List String) :
    globMatch (p :: ps) [] = false :=
  globMatch.eq_3 p ps (fun h => ne_of_beq_false (litSeg_ne_dstar hp) h)

theorem globMatch_lit_cons {p : String} (hp : litSeg p = true) (ps : List String)
    (s : String) (ss : Path) :
    globMatch (p :: ps) (s :: ss) = ((s == p) && globMatch ps ss) := by
  rw [globMatch.eq_4 p ps s ss (fun h => ne_of_beq_false (litSeg_ne_dstar hp) h)]
  rw [segMatch_lit hp]

theorem beq_comm_str (a b : String) : (a == b) = (b == a) := by
  by_cases h : a = b
  · subst h; rfl
  · have h1 : (a == b) = false := beq_eq_false_iff_ne.mpr h
    have h2 : (b == a) = false := beq_eq_false_iff_ne.mpr (fun e => h e.symm)
    rw [h1, h2]

theorem globMatch_append_lit :
    ∀ root : Path, root.all litSeg = true → ∀ (ps : List String) (f : Path),
      globMatch (root ++ ps) f =
        (root.isPrefixOf f && globMatch ps (f.drop root.length)) := by
  intro root
  induction root with
  | nil =>
    intro _ ps f
    have hpre : ([] : Path).isPrefixOf f = true := by simp [List.isPrefixOf]
    rw [List.nil_append, List.length_nil, List.drop_zero, hpre, Bool.true_and]
  | cons r rs ih =>
    intro hr ps f
    rw [List.all_cons, Bool.and_eq_true] at hr
    cases f with
    | nil =>
      rw [List.cons_append, globMatch_lit_nil hr.1]
      rfl
    | cons s ss =>
      rw [List.cons_append, globMatch_lit_cons hr.1, ih hr.2 ps ss]
      show _ = (((r == s) && rs.isPrefixOf ss) && _)
      rw [beq_comm_str s r, Bool.and_assoc]
      rfl

theorem globMatch_dstar_single {p : String} (hp : (p == "**") = false) :
    ∀ f : Path, globMatch ["**", p] f = f.getLast?.any (fun a => segMatch p a) := by
  have hne : p = "**" → False := fun h => by subst h; exact absurd hp (by decide)
  intro f
  induction f with
  | nil =>
    rw [globMatch.eq_2]
    have h0 : globMatch [p] [] = false := globMatch.eq_3 p [] hne
    simp [h0]
  | cons s ss ih =>
    rw [globMatch.eq_2, List.tails_cons, List.any_cons]
    have hstep : globMatch [p] (s :: ss) = (segMatch p s && ss.isEmpty) := by
      rw [globMatch.eq_4 p [] s ss hne, globMatch.eq_1]
    rw [hstep, ← globMatch.eq_2 ss [p], ih]
    cases ss with
    | nil => simp
    | cons t ts => simp

theorem segMatch_star (a : String) : segMatch "*" a = true := by
  unfold segMatch
  rw [(by decide : strSplitOn "*" "*" = ["", ""])]
  show ("".data.isPrefixOf a.data && "".data.isSuffixOf a.data &&
    decide ("".length + "".length ≤ a.length)) = true
  simp [List.isPrefixOf, List.isSuffixOf]

theorem globMatch_dstar_star : ∀ f : Path, globMatch ["**", "*"] f = !f.isEmpty := by
  intro f
  rw [globMatch_dstar_single (by decide)]
  cases f with
  | nil => rfl
  | cons s ss =>
    have hne : s :: ss ≠ [] := by simp
    cases hlast : (s :: ss).getLast? with
    | none => exact absurd (List.getLast?_eq_none_iff.mp hlast) hne
    | some a => simp [segMatch_star]

theorem globMatch_single_lit {p : String} (hp : litSeg p = true) :
    ∀ rest : Path, globMatch [p] rest = (rest == [p]) := by
  intro rest
  cases rest with
  | nil => rw [globMatch_lit_nil hp]; rfl
  | cons s ss =>
    rw [globMatch_lit_cons hp]
    show _ = ((s == p) && (ss == ([] : List String)))
    cases ss with
    | nil => rfl
    | cons t ts => rfl

theorem globMatch_specFolder :
    ∀ rest : Path, globMatch ["spec", "**", "*"] rest =
      ((rest.head? == some "spec") && !rest.tail.isEmpty) := by
  intro rest
  cases rest with
  | nil => rw [globMatch_lit_nil (by decide)]; rfl
  | cons s ss =>
    rw [globMatch_lit_cons (by decide), globMatch_dstar_star]
    show _ = ((s == "spec") && _)
    cases ss with
    | nil => rfl
    | cons t ts => rfl

theorem gulpStep_no_match {f : Path} {g : GPat} (h : globMatch g.pattern f = false)
    (acc : Bool) : gulpStep f acc g = acc := by
  cases g with
  | pos p => simp only [GPat.pattern] at h; simp [gulpStep, h]
  | neg p => simp only [GPat.pattern] at h; simp [gulpStep, h]

theorem foldl_gulpStep_skip {f : Path} {B : List GPat}
    (hB : ∀ g ∈ B, globMatch g.pattern f = false) (acc : Bool) :
    B.foldl (gulpStep f) acc = acc := by
  induction B generalizing acc with
  | nil => rfl
  | cons g gs ih =>
    rw [List.foldl_cons, gulpStep_no_match (hB g (by simp)) acc]
    exact ih (fun g' hg' => hB g' (by simp [hg'])) acc

theorem gulpMatch_append_skip_right {A B : List GPat} {f : Path}
    (hB : ∀ g ∈ B, globMatch g.pattern f = false) :
    gulpMatch (A ++ B) f = gulpMatch A f := by
  unfold gulpMatch
  rw [List.foldl_append]
  exact foldl_gulpStep_skip hB _

theorem gulpMatch_append_skip_left {A B : List GPat} {f : Path}
    (hA : ∀ g ∈ A, globMatch g.pattern f = false) :
    gulpMatch (A ++ B) f = gulpMatch B f := by
  unfold gulpMatch
  rw [List.foldl_append, foldl_gulpStep_skip hA]

theorem codeFiles_no_match {r : Path} (hr : r.all litSeg = true) {f : Path}
    (h : r.isPrefixOf f = false) :
    ∀ g ∈ codeFiles r, globMatch g.pattern f = false := by
  have key : ∀ ps, globMatch (r ++ ps) f = false := fun ps => by
    rw [globMatch_append_lit r hr ps f, h, Bool.false_and]
  intro g hg
  simp only [codeFiles, List.mem_cons, List.not_mem_nil, or_false] at hg
  rcases hg with rfl | rfl | rfl | rfl <;> exact key _

theorem gulpMatch_codeFiles {r : Path} (hr : r.all litSeg = true) (f : Path) :
    gulpMatch (codeFiles r) f = isNonSpecTs r f := by
  have e1 : globMatch (r ++ ["**", "*.ts"]) f =
      (r.isPrefixOf f && (f.drop r.length).getLast?.any (fun a => segMatch "*.ts" a)) := by
    rw [globMatch_append_lit r hr, globMatch_dstar_single (by decide)]
  have e2 : globMatch (r ++ ["spec.ts"]) f =
      (r.isPrefixOf f && (f.drop r.length == ["spec.ts"])) := by
    rw [globMatch_append_lit r hr, globMatch_single_lit (by decide)]
  have e3 : globMatch (r ++ ["**", "*.spec.ts"]) f =
      (r.isPrefixOf f &&
        (f.drop r.length).getLast?.any (fun a => segMatch "*.spec.ts" a)) := by
    rw [globMatch_append_lit r hr, globMatch_dstar_single (by decide)]
  have e4 : globMatch (r ++ ["spec", "**", "*"]) f =
      (r.isPrefixOf f &&
        (((f.drop r.length).head? == some "spec") && !(f.drop r.length).tail.isEmpty)) := by
    rw [globMatch_append_lit r hr, globMatch_specFolder]
  unfold gulpMatch codeFiles
  simp only [List.foldl_cons, List.foldl_nil, gulpStep]
  rw [e1, e2, e3, e4]
  unfold isNonSpecTs
  cases hpre : r.isPrefixOf f <;>
    cases hm1 : (f.drop r.length).getLast?.any (fun a => segMatch "*.ts" a) <;>
    cases hm2 : (f.drop r.length == ["spec.ts"]) <;>
    cases hm3 : (f.drop r.length).getLast?.any (fun a => segMatch "*.spec.ts" a) <;>
    cases hm4 : (((f.drop r.length).head? == some "spec") &&
      !(f.drop r.length).tail.isEmpty) <;>
    simp

theorem isPrefixOf_total :
    ∀ (c a b : Path), a.isPrefixOf c = true → b.isPrefixOf c = true →
      (a.isPrefixOf b = true ∨ b.isPrefixOf a = true) := by
  intro c
  induction c with
  | nil =>
    intro a b ha hb
    cases a with
    | nil => exact Or.inl (by simp [List.isPrefixOf])
    | cons x xs => simp [List.isPrefixOf] at ha
  | cons x cs ih =>
    intro a b ha hb
    cases a with
    | nil => exact Or.inl (by simp [List.isPrefixOf])
    | cons a1 as =>
      cases b with
      | nil => exact Or.inr (by simp [List.isPrefixOf])
      | cons b1 bs =>
        simp only [List.isPrefixOf, Bool.and_eq_true, beq_iff_eq] at ha hb ⊢
        obtain ⟨hax, ha2⟩ := ha
        obtain ⟨hbx, hb2⟩ := hb
        rcases ih as bs ha2 hb2 with h | h
        · exact Or.inl ⟨hax.trans hbx.symm, h⟩
        · exact Or.inr ⟨hbx.trans hax.symm, h⟩

theorem gulpMatch_flatten_codeFiles :
    ∀ rs : List Path, (∀ r ∈ rs, r.all litSeg = true) →
      rs.Pairwise (fun a b => a.isPrefixOf b = false ∧ b.isPrefixOf a = false) →
      ∀ f, gulpMatch ((rs.map codeFiles).flatten) f =
        rs.any (fun r => isNonSpecTs r f) := by
  intro rs
  induction rs with
  | nil => intro _ _ f; rfl
  | cons r rest ih =>
    intro hlit hdisj f
    rw [List.map_cons, List.flatten_cons, List.any_cons]
    rw [List.pairwise_cons] at hdisj
    obtain ⟨hd, hdtail⟩ := hdisj
    have hlit_r : r.all litSeg = true := hlit r (by simp)
    have hlit_rest : ∀ r' ∈ rest, r'.all litSeg = true := fun r' h => hlit r' (by simp [h])
    cases hpre : r.isPrefixOf f with
    | false =>
      rw [gulpMatch_append_skip_left (codeFiles_no_match hlit_r hpre),
        ih hlit_rest hdtail f]
      have hr0 : isNonSpecTs r f = false := by
        unfold isNonSpecTs
        rw [hpre]
        rfl
      rw [hr0, Bool.false_or]
    | true =>
      have hnorest : ∀ r' ∈ rest, r'.isPrefixOf f = false := by
        intro r' hr'
        cases hpf : r'.isPrefixOf f with
        | false => rfl
        | true =>
          rcases isPrefixOf_total f r r' hpre hpf with h | h
          · rw [(hd r' hr').1] at h
            cases h
          · rw [(hd r' hr').2] at h
            cases h
      have hnomatch : ∀ g ∈ (rest.map codeFiles).flatten, globMatch g.pattern f = false := by
        intro g hg
        rw [List.mem_flatten] at hg
        obtain ⟨l, hl, hgl⟩ := hg
        rw [List.mem_map] at hl
        obtain ⟨r', hr', rfl⟩ := hl
        exact codeFiles_no_match (hlit_rest r' hr') (hnorest r' hr') g hgl
      rw [gulpMatch_append_skip_right hnomatch, gulpMatch_codeFiles hlit_r]
      have hrest_any : rest.any (fun r' => isNonSpecTs r' f) = false := by
        rw [List.any_eq_false]
        intro r' hr'
        unfold isNonSpecTs
        rw [hnorest r' hr']
        simp
      rw [hrest_any, Bool.or_false]

theorem verifyFold_eq (config : GlobalConfig) :
    ∀ (deps : List String) (rs : List Path) (acc : List GPat),
      deps.mapM (fun d => bundleRoot? config d) = some rs →
      deps.foldlM (fun a d => (dependenciesCode config d).map (a ++ ·)) acc =
        .ok (acc ++ (rs.map codeFiles).flatten) := by
  intro deps
  induction deps with
  | nil =>
    intro rs acc h
    simp only [List.mapM_nil, pure, Option.some.injEq] at h
    subst h
    simp [List.foldlM, pure, Except.pure]
  | cons d ds ih =>
    intro rs acc h
    rw [List.mapM_cons] at h
    cases hb : bundleRoot? config d with
    | none => rw [hb] at h; simp [bind] at h
    | some r0 =>
      rw [hb] at h
      cases hms : ds.mapM (fun d => bundleRoot? config d) with
      | none => rw [hms] at h; simp [bind] at h
      | some rest =>
        rw [hms] at h
        simp only [bind, Option.bind, pure, Option.some.injEq] at h
        subst h
        have hdc : dependenciesCode config d = .ok (codeFiles r0) := by
          unfold bundleRoot? at hb
          unfold dependenciesCode
          cases hf : config.bundles.find? (fun bb => bb.name == d) with
          | none => rw [hf] at hb; simp at hb
          | some dep =>
            rw [hf] at hb
            simp only [Option.map, Option.some.injEq] at hb
            show Except.ok (codeFiles (rootPath dep.root)) = Except.ok (codeFiles r0)
            rw [hb]
        simp only [List.foldlM_cons]
        rw [hdc]
        show ds.foldlM (fun a d => (dependenciesCode config d).map (a ++ ·))
            (acc ++ codeFiles r0) =
          Except.ok (acc ++ ((r0 :: rest).map codeFiles).flatten)
        rw [ih rest (acc ++ codeFiles r0) hms, List.map_cons, List.flatten_cons,
          List.append_assoc]

theorem verifyFiles_eq {b : BundleConfig} {config : GlobalConfig} {root : Path}
    {fl : List GPat} {depRoots : List Path}
    (hroots : b.dependencies.mapM (fun d => bundleRoot? config d) = some depRoots)
    (hv : verifyFiles b config root = .ok fl) :
    fl = ((root :: depRoots).map codeFiles).flatten := by
  unfold verifyFiles at hv
  rw [verifyFold_eq config b.dependencies depRoots (codeFiles root) hroots] at hv
  have hfl := Except.ok.inj hv
  rw [← hfl, List.map_cons, List.flatten_cons]

/-- C4: for a bundle with a code entry point (and pairwise non-nested,
wildcard-free roots), the code-verify task's input file set selects exactly
the bundle's own non-spec `.ts` files plus, for each direct dependency
only, that dependency's own non-spec `.ts` files — a file under any other
root (in particular a transitive dependency's) is never selected. -/
theorem verify_files_direct_deps_only (b : BundleConfig) (config : GlobalConfig)
    (fs : List Path) (reg : List String) (out : List Task × List String)
    (depRoots : List Path)
    (h : generateTasks b config fs reg = .ok out)
    (hcode : (rootOf b ++ ["index.ts"]) ∈ fs)
    (hroots : b.dependencies.mapM (fun d => bundleRoot? config d) = some depRoots)
    (hlit : ∀ r ∈ rootOf b :: depRoots, r.all litSeg = true)
    (hdisj : (rootOf b :: depRoots).Pairwise
      (fun a c => a.isPrefixOf c = false ∧ c.isPrefixOf a = false)) :
    ∃ fl, (⟨b.name ++ ":code:verify", preBuildDepsFinal b fs,
        some (.codeVerify fl)⟩ : Task) ∈ out.1 ∧
      ∀ f, gulpMatch fl f =
        (isNonSpecTs (rootOf b) f || depRoots.any (fun r => isNonSpecTs r f)) := by
  obtain ⟨cTasks, hcs, h1, _⟩ := generateTasks_ok h
  rcases codeStage_ok hcs with ⟨hnc, rfl⟩ | ⟨hcmem, fl, hv, rfl⟩
  · exact absurd hcode hnc
  · refine ⟨fl, ?_, ?_⟩
    · rw [h1]
      exact List.mem_append_left _ (List.mem_append_left _
        (List.mem_append_right _ (by simp)))
    · intro f
      rw [verifyFiles_eq hroots hv, gulpMatch_flatten_codeFiles _ hlit hdisj f,
        List.any_cons]

/-- C4 (witness): the scenario-2 chain `base` ← `core` ← `app2` at a
concrete filesystem. -/
theorem verify_files_direct_deps_only_witness :
    ∃ out, generateTasks app2Bundle chainConfig chainFs [] = .ok out ∧
      ∃ fl, (⟨app2Bundle.name ++ ":code:verify", preBuildDepsFinal app2Bundle chainFs,
          some (.codeVerify fl)⟩ : Task) ∈ out.1 ∧
        ∀ f, gulpMatch fl f =
          (isNonSpecTs (rootOf app2Bundle) f ||
            [["lib"]].any (fun r => isNonSpecTs r f)) := by
  cases hg : generateTasks app2Bundle chainConfig chainFs [] with
  | error e =>
    have hok : exceptOk (generateTasks app2Bundle chainConfig chainFs []) = true := rfl
    rw [hg] at hok
    simp [exceptOk] at hok
  | ok out =>
    exact ⟨out, rfl, verify_files_direct_deps_only app2Bundle chainConfig chainFs [] out
      [["lib"]] hg (by decide) (by decide) (by decide) (by decide)⟩

/-! ### The process-wide run: registry threading -/

theorem generate_ok {b : BundleConfig} {config : GlobalConfig} {fs : List Path}
    {st st' : GenState} (h : generate b config fs st = .ok st') :
    ∃ out, generateTasks b config fs st.styleTasks = .ok out ∧
      st'.styleTasks = out.2 ∧ st'.tasks = st.tasks ++ out.1 := by
  unfold generate at h
  cases hg : generateTasks b config fs st.styleTasks with
  | error e => rw [hg] at h; cases h
  | ok out =>
    rw [hg] at h
    simp only [Except.map] at h
    refine ⟨out, rfl, ?_, ?_⟩ <;> rw [← Except.ok.inj h]

theorem foldl_generate_decomp (config : GlobalConfig) (fs : List Path) :
    ∀ (bs : List BundleConfig) (st st' : GenState),
      bs.foldlM (fun s bb => generate bb config fs s) st = .ok st' →
      st'.styleTasks = st.styleTasks ++ styledStyleIds bs fs ∧
      ∃ rest, st'.tasks = st.tasks ++ rest := by
  intro bs
  induction bs with
  | nil =>
    intro st st' h
    have hst : st = st' := Except.ok.inj h
    subst hst
    exact ⟨by simp [styledStyleIds], [], by simp⟩
  | cons b bs ih =>
    intro st st' h
    rw [List.foldlM_cons] at h
    cases hgb : generate b config fs st with
    | error e => rw [hgb] at h; exact absurd h (by simp [Bind.bind, Except.bind])
    | ok mid =>
      rw [hgb] at h
      have h2 : bs.foldlM (fun s bb => generate bb config fs s) mid = .ok st' := h
      obtain ⟨hsty, hrest⟩ := ih mid st' h2
      obtain ⟨out, hgt, hsty2, htk⟩ := generate_ok hgb
      obtain ⟨cT, hcs, hout1, hout2⟩ := generateTasks_ok hgt
      constructor
      · rw [hsty, hsty2, hout2]
        unfold styledStyleIds
        cases hS : hasStyleB b fs <;>
          simp [List.filter_cons, hS, List.append_assoc]
      · obtain ⟨rest, hs⟩ := hrest
        exact ⟨out.1 ++ rest, by rw [hs, htk, List.append_assoc]⟩

theorem generateAll_extract {config : GlobalConfig} {fs : List Path} {st' : GenState}
    (h : generateAll config fs = .ok st')
    {pre : List BundleConfig} {b : BundleConfig} {post : List BundleConfig}
    (hsplit : config.bundles = pre ++ b :: post) :
    ∃ (stMid : GenState) (out : List Task × List String),
      stMid.styleTasks = styledStyleIds pre fs ∧
      generateTasks b config fs stMid.styleTasks = .ok out ∧
      ∀ t ∈ out.1, t ∈ st'.tasks := by
  unfold generateAll at h
  rw [hsplit, List.foldlM_append] at h
  cases hpre : pre.foldlM (fun s bb => generate bb config fs s) ({} : GenState) with
  | error e => rw [hpre] at h; exact absurd h (by simp [Bind.bind, Except.bind])
  | ok stMid =>
    rw [hpre] at h
    have h2 : (b :: post).foldlM (fun s bb => generate bb config fs s) stMid = .ok st' := h
    rw [List.foldlM_cons] at h2
    cases hgb : generate b config fs stMid with
    | error e => rw [hgb] at h2; exact absurd h2 (by simp [Bind.bind, Except.bind])
    | ok mid2 =>
      rw [hgb] at h2
      have h3 : post.foldlM (fun s bb => generate bb config fs s) mid2 = .ok st' := h2
      obtain ⟨hsty0, _⟩ := foldl_generate_decomp config fs pre {} stMid hpre
      obtain ⟨out, hgt, hsty2, htk⟩ := generate_ok hgb
      obtain ⟨_, hrest⟩ := foldl_generate_decomp config fs post mid2 st' h3
      obtain ⟨rest, hs⟩ := hrest
      refine ⟨stMid, out, by rw [hsty0]; rfl, hgt, ?_⟩
      intro t ht
      rw [hs, htk]
      exact List.mem_append_left _ (List.mem_append_right _ ht)

theorem dedup_foldl_eq_self :
    ∀ (l acc : List String), (acc ++ l).Nodup →
      l.foldl (fun acc x => if x ∈ acc then acc else acc ++ [x]) acc = acc ++ l := by
  intro l
  induction l with
  | nil => intro acc _; simp
  | cons x xs ih =>
    intro acc hnd
    rw [List.foldl_cons]
    have hx : x ∉ acc := fun hmem =>
      (List.nodup_append.mp hnd).2.2 hmem (by simp)
    rw [if_neg hx, ih (acc ++ [x]) (by simpa [List.append_assoc] using hnd)]
    simp

theorem lodashIntersection_eq_filter {a : List String} (ha : a.Nodup) (bl : List String) :
    lodashIntersection a bl = a.filter (fun x => decide (x ∈ bl)) := by
  unfold lodashIntersection
  rw [dedup_foldl_eq_self a [] (by simpa using ha), List.nil_append]

theorem append_cancel_str {a c s : String} (h : a ++ s = c ++ s) : a = c := by
  have hd : a.data ++ s.data = c.data ++ s.data := by
    rw [← String.data_append, ← String.data_append, h]
  exact String.ext (List.append_cancel_right hd)

theorem styledStyleIds_nodup {pre : List BundleConfig} (fs : List Path)
    (h : (pre.map BundleConfig.name).Nodup) : (styledStyleIds pre fs).Nodup := by
  unfold styledStyleIds
  have hnd : ((pre.filter (fun b => hasStyleB b fs)).map BundleConfig.name).Nodup :=
    List.Nodup.sublist (List.Sublist.map _ (List.filter_sublist _)) h
  have hinj : Function.Injective (fun x : String => x ++ ":styles") :=
    fun a c hac => append_cancel_str hac
  have hmapped := List.Nodup.map hinj hnd
  rw [List.map_map] at hmapped
  exact hmapped

/-! ### C5, C8, C10: cross-bundle prerequisite wiring -/

/-- C5: in a full run with unique bundle names, a styled bundle's styles
task exists and its prerequisite list is exactly the Style-Task Registry
(the style ids of earlier styled bundles, in registry insertion order)
filtered to the declared dependencies' style ids; an earlier styled
dependency therefore contributes its styles task, and a dependency that
produced no styles task contributes nothing. -/
theorem styles_prereqs_registry_order (config : GlobalConfig) (fs : List Path)
    (st' : GenState) (pre : List BundleConfig) (b : BundleConfig)
    (post : List BundleConfig)
    (hsplit : config.bundles = pre ++ b :: post)
    (h : generateAll config fs = .ok st')
    (hnodup : (config.bundles.map BundleConfig.name).Nodup)
    (hstyle : hasStyleB b fs = true) :
    ∃ t ∈ st'.tasks, t.name = b.name ++ ":styles" ∧
      t.deps = (styledStyleIds pre fs).filter
        (fun x => decide (x ∈ b.dependencies.map (fun d => d ++ ":styles"))) ∧
      (∀ a ∈ pre, a.name ∈ b.dependencies → hasStyleB a fs = true →
        (a.name ++ ":styles") ∈ t.deps) ∧
      ∀ d ∈ b.dependencies, (∀ a ∈ pre, a.name = d → hasStyleB a fs = false) →
        (d ++ ":styles") ∉ t.deps := by
  obtain ⟨stMid, out, hsty, hgt, hmem⟩ := generateAll_extract h hsplit
  obtain ⟨cT, hcs, h1, _⟩ := generateTasks_ok hgt
  have hpreNodup : (pre.map BundleConfig.name).Nodup := by
    rw [hsplit, List.map_append] at hnodup
    exact List.Nodup.of_append_left hnodup
  have hregNodup := styledStyleIds_nodup fs hpreNodup
  have hdeps : (stylesTask b (rootOf b) stMid.styleTasks).deps =
      (styledStyleIds pre fs).filter
        (fun x => decide (x ∈ b.dependencies.map (fun d => d ++ ":styles"))) := by
    show lodashIntersection stMid.styleTasks _ = _
    rw [hsty, lodashIntersection_eq_filter hregNodup]
  refine ⟨stylesTask b (rootOf b) stMid.styleTasks, hmem _ ?_, rfl, hdeps, ?_, ?_⟩
  · rw [h1]
    exact List.mem_append_left _ (List.mem_append_left _ (List.mem_append_left _
      (List.mem_append_right _ (mem_ite_nil.mpr ⟨hstyle, by simp⟩))))
  · intro a hapre hadep hasty
    rw [hdeps, List.mem_filter]
    refine ⟨?_, ?_⟩
    · unfold styledStyleIds
      exact List.mem_map_of_mem _ (List.mem_filter.mpr ⟨hapre, hasty⟩)
    · simp only [decide_eq_true_eq]
      exact List.mem_map_of_mem _ hadep
  · intro d hd hnone hmemdep
    rw [hdeps, List.mem_filter] at hmemdep
    have hin := hmemdep.1
    unfold styledStyleIds at hin
    rw [List.mem_map] at hin
    obtain ⟨a, hafil, haeq⟩ := hin
    rw [List.mem_filter] at hafil
    obtain ⟨hamem, hasty⟩ := hafil
    have hname : a.name = d := append_cancel_str haeq
    rw [hnone a hamem hname] at hasty
    cases hasty

/-- C5 (witness): in the concrete style scenario (`a` styled, `c` not
styled, `b` depending on both), `b`'s styles task lists `a:styles` and not
`c:styles`. -/
theorem styles_prereqs_registry_order_witness :
    ∃ st', generateAll styleConfig styleFs = .ok st' ∧
      ∃ t ∈ st'.tasks, t.name = styleBBundle.name ++ ":styles" ∧
        t.deps = (styledStyleIds [styleABundle, styleCBundle] styleFs).filter
          (fun x => decide (x ∈ styleBBundle.dependencies.map (fun d => d ++ ":styles"))) ∧
        (∀ a ∈ [styleABundle, styleCBundle], a.name ∈ styleBBundle.dependencies →
          hasStyleB a styleFs = true → (a.name ++ ":styles") ∈ t.deps) ∧
        ∀ d ∈ styleBBundle.dependencies,
          (∀ a ∈ [styleABundle, styleCBundle], a.name = d →
            hasStyleB a styleFs = false) →
          (d ++ ":styles") ∉ t.deps := by
  cases hg : generateAll styleConfig styleFs with
  | error e =>
    have hok : exceptOk (generateAll styleConfig styleFs) = true := rfl
    rw [hg] at hok
    simp [exceptOk] at hok
  | ok st' =>
    exact ⟨st', rfl, styles_prereqs_registry_order styleConfig styleFs st'
      [styleABundle, styleCBundle] styleBBundle [] rfl hg (by decide) (by decide)⟩

/-- C10: in a full run with unique bundle names, a styled bundle's own
styles task id is never among its own styles task's prerequisites — the
registry intersection is computed before the bundle's id is appended, and
the registry then holds only earlier bundles' ids. -/
theorem styles_task_no_self_dependency (config : GlobalConfig) (fs : List Path)
    (st' : GenState) (pre : List BundleConfig) (b : BundleConfig)
    (post : List BundleConfig)
    (hsplit : config.bundles = pre ++ b :: post)
    (h : generateAll config fs = .ok st')
    (hnodup : (config.bundles.map BundleConfig.name).Nodup)
    (hstyle : hasStyleB b fs = true) :
    ∃ t ∈ st'.tasks, t.name = b.name ++ ":styles" ∧
      (b.name ++ ":styles") ∉ t.deps := by
  obtain ⟨stMid, out, hsty, hgt, hmem⟩ := generateAll_extract h hsplit
  obtain ⟨cT, hcs, h1, _⟩ := generateTasks_ok hgt
  have hpreNodup : (pre.map BundleConfig.name).Nodup := by
    rw [hsplit, List.map_append] at hnodup
    exact List.Nodup.of_append_left hnodup
  have hbnot : b.name ∉ pre.map BundleConfig.name := by
    rw [hsplit, List.map_append, List.map_cons] at hnodup
    intro hmemb
    exact (List.nodup_append.mp hnodup).2.2 hmemb (by simp)
  have hregNodup := styledStyleIds_nodup fs hpreNodup
  have hdeps : (stylesTask b (rootOf b) stMid.styleTasks).deps =
      (styledStyleIds pre fs).filter
        (fun x => decide (x ∈ b.dependencies.map (fun d => d ++ ":styles"))) := by
    show lodashIntersection stMid.styleTasks _ = _
    rw [hsty, lodashIntersection_eq_filter hregNodup]
  refine ⟨stylesTask b (rootOf b) stMid.styleTasks, hmem _ ?_, rfl, ?_⟩
  · rw [h1]
    exact List.mem_append_left _ (List.mem_append_left _ (List.mem_append_left _
      (List.mem_append_right _ (mem_ite_nil.mpr ⟨hstyle, by simp⟩))))
  · intro hmemdep
    rw [hdeps, List.mem_filter] at hmemdep
    have hin := hmemdep.1
    unfold styledStyleIds at hin
    rw [List.mem_map] at hin
    obtain ⟨a, hafil, haeq⟩ := hin
    rw [List.mem_filter] at hafil
    have hname : a.name = b.name := append_cancel_str haeq
    exact hbnot (hname ▸ List.mem_map_of_mem _ hafil.1)

/-- C10 (witness): the style scenario's bundle `b` lacks `b:styles` among
its styles task's prerequisites. -/
theorem styles_task_no_self_dependency_witness :
    ∃ st', generateAll styleConfig styleFs = .ok st' ∧
      ∃ t ∈ st'.tasks, t.name = styleBBundle.name ++ ":styles" ∧
        (styleBBundle.name ++ ":styles") ∉ t.deps := by
  cases hg : generateAll styleConfig styleFs with
  | error e =>
    have hok : exceptOk (generateAll styleConfig styleFs) = true := rfl
    rw [hg] at hok
    simp [exceptOk] at hok
  | ok st' =>
    exact ⟨st', rfl, styles_task_no_self_dependency styleConfig styleFs st'
      [styleABundle, styleCBundle] styleBBundle [] rfl hg (by decide) (by decide)⟩

/-- C8: if bundle B declares bundle A among its dependencies (both with a
code entry point), then in a successful full run the task `B:preBuild`
exists and lists `A:preBuild` among its prerequisites. -/
theorem prebuild_dependency_edge (config : GlobalConfig) (fs : List Path)
    (st' : GenState) (A B : BundleConfig)
    (h : generateAll config fs = .ok st')
    (hA : A ∈ config.bundles) (hB : B ∈ config.bundles)
    (hdep : A.name ∈ B.dependencies)
    (hcodeA : (rootOf A ++ ["index.ts"]) ∈ fs)
    (hcodeB : (rootOf B ++ ["index.ts"]) ∈ fs) :
    ∃ t ∈ st'.tasks, t.name = B.name ++ ":preBuild" ∧
      (A.name ++ ":preBuild") ∈ t.deps := by
  obtain ⟨pre, post, hsplit⟩ := List.append_of_mem hB
  obtain ⟨stMid, out, hsty, hgt, hmem⟩ := generateAll_extract h hsplit
  obtain ⟨cT, hcs, h1, _⟩ := generateTasks_ok hgt
  refine ⟨preBuildTask B (preBuildDepsFinal B fs), hmem _ ?_, rfl, ?_⟩
  · rw [h1]
    exact List.mem_append_left _ (List.mem_append_right _ (by simp))
  · have h0 : (A.name ++ ":preBuild") ∈ preBuildDeps0 B := by
      unfold preBuildDeps0
      exact List.mem_append_right _ (List.mem_map_of_mem _ hdep)
    show (A.name ++ ":preBuild") ∈ preBuildDepsFinal B fs
    unfold preBuildDepsFinal
    split_ifs <;> simp [List.mem_append, h0]

/-- C8 (witness): in the scenario-2 chain, `core:preBuild` is a
prerequisite of `app2:preBuild`. -/
theorem prebuild_dependency_edge_witness :
    ∃ st', generateAll chainConfig chainFs = .ok st' ∧
      ∃ t ∈ st'.tasks, t.name = app2Bundle.name ++ ":preBuild" ∧
        (coreBundle.name ++ ":preBuild") ∈ t.deps := by
  cases hg : generateAll chainConfig chainFs with
  | error e =>
    have hok : exceptOk (generateAll chainConfig chainFs) = true := rfl
    rw [hg] at hok
    simp [exceptOk] at hok
  | ok st' =>
    exact ⟨st', rfl, prebuild_dependency_edge chainConfig chainFs st'
      coreBundle app2Bundle hg (by decide) (by decide) (by decide) (by decide) (by decide)⟩

/-! ### C6: unknown bundle dependency -/

/-- C6: with a bundle whose `dependencies` names the unconfigured bundle
`ghost` and whose root has `index.ts`, construction crashes by reading
property `root` of `undefined` — an opaque runtime fault, not a descriptive
"unknown bundle dependency" error; and without a code entry point the same
bad dependency passes construction without any failure at all. -/
theorem unknown_dependency_opaque_crash :
    generateTasks ghostBundle ghostConfig [["src", "index.ts"]] [] =
      .error (.undefinedProperty "root") ∧
    ∃ out, generateTasks ghostBundle ghostConfig [["src", "readme.md"]] [] = .ok out := by
  refine ⟨rfl, ?_⟩
  cases hg : generateTasks ghostBundle ghostConfig [["src", "readme.md"]] [] with
  | error e =>
    have hok : exceptOk (generateTasks ghostBundle ghostConfig [["src", "readme.md"]] []) =
        true := rfl
    rw [hg] at hok
    simp [exceptOk] at hok
  | ok out => exact ⟨out, rfl⟩

/-! ### C7: asset-folder exclusion of the images stage -/

/-- C7: the `.svg` detection glob does ignore the declared asset folders,
but the pattern list handed to the image pre-cache action holds only
positive patterns, so an `.svg` file inside an asset folder is excluded
from detection yet selected by the pre-cache pattern set; the generated
images task carries exactly those patterns. -/
theorem asset_svg_included_in_precache :
    globSync imgFs (rootOf imgBundle ++ ["**", "*.svg"])
        (assetPaths (rootOf imgBundle) ["**", "*"] imgBundle.assetFolders) =
      [["src", "logo.svg"]] ∧
    gulpMatch (imagesPreCachePatterns (rootOf imgBundle) imgBundle.assetFolders)
        ["src", "assets", "icon.svg"] = true ∧
    imagesTask imgBundle (rootOf imgBundle) ∈
      okTasks (generateTasks imgBundle imgConfig imgFs []) :=
  ⟨rfl, rfl, by decide⟩

end UiBuildTools
